import Mathlib

/-!
Shallow embedding of the raycasting core of the esp32-3D repository
(src/main/main.c together with the ESP32 raylib shim src/main/libs/raylib.h),
in the ESP32 configuration: SCREEN_W = LCD_W = 240, SCREEN_H = LCD_H = 136,
RAY_RES = 2.  Float arithmetic is embedded as exact rational arithmetic.  The
raymath helpers (Vector2Add, Vector2Scale, Vector2Subtract, Vector2DotProduct)
are the standard componentwise definitions, with EPSILON = 0.000001 as in
raymath.  Vector2Rotate computes with the cosine and sine of its angle; since
the embedding works over ℚ, those two values are passed as explicit rational
arguments wherever a rotation occurs.
-/

namespace R3D

/-- Vector2 from raylib / raymath, over ℚ. -/
structure Vector2 where
  x : ℚ
  y : ℚ
  deriving DecidableEq, Repr

/-- Vector2Add from raymath: componentwise sum. -/
def Vector2Add (a b : Vector2) : Vector2 := ⟨a.x + b.x, a.y + b.y⟩

/-- Vector2Subtract from raymath: componentwise difference. -/
def Vector2Subtract (a b : Vector2) : Vector2 := ⟨a.x - b.x, a.y - b.y⟩

/-- Vector2Scale from raymath: scalar multiple. -/
def Vector2Scale (v : Vector2) (scale : ℚ) : Vector2 := ⟨v.x * scale, v.y * scale⟩

/-- Vector2DotProduct from raymath. -/
def Vector2DotProduct (a b : Vector2) : ℚ := a.x * b.x + a.y * b.y

/-- Squared Euclidean length.  The source loop condition compares
Vector2Length (a square root) against MAX_RENDER_DIST; both sides are
nonnegative, so comparing the squared length against MAX_RENDER_DIST squared
is the same condition and keeps the embedding inside ℚ. -/
def Vector2LengthSq (v : Vector2) : ℚ := v.x ^ 2 + v.y ^ 2

/-- Vector2Rotate from raymath, with the cosine c and sine s of the rotation
angle passed explicitly (raymath computes them with cosf and sinf). -/
def Vector2RotateCS (v : Vector2) (c s : ℚ) : Vector2 :=
  ⟨v.x * c - v.y * s, v.x * s + v.y * c⟩

/-- EPSILON from raymath (0.000001). -/
def EPSILON : ℚ := 1 / 1000000

/-- SCREEN_W in the ESP32 build (= LCD_W = 240), as a rational. -/
def SCREEN_W : ℚ := 240

/-- SCREEN_H in the ESP32 build (= LCD_H = 136), as a rational. -/
def SCREEN_H : ℚ := 136

/-- COLS from main.c. -/
def COLS : ℚ := 10

/-- ROWS from main.c. -/
def ROWS : ℚ := 10

/-- MAX_RENDER_DIST from main.c. -/
def MAX_RENDER_DIST : ℚ := 20

/-- ASPECT_RATIO from main.c: SCREEN_W / SCREEN_H. -/
def ASPECT_RATIO : ℚ := SCREEN_W / SCREEN_H

/-- PLAYER_SPEED from main.c. -/
def PLAYER_SPEED : ℚ := 5 / 2

/-- RAY_RES in the ESP32 build (slice width and column step). -/
def RAY_RES : ℤ := 2

/-- LCD_W from the ESP32 raylib shim. -/
def LCD_W : ℤ := 240

/-- LCD_H from the ESP32 raylib shim. -/
def LCD_H : ℤ := 136

/-- Player struct from main.c: position and facing direction. -/
structure Player where
  pos : Vector2
  dir : Vector2
  deriving DecidableEq, Repr

/-- Color from the ESP32 raylib shim: an r5 g6 b5 bitfield struct.  Channels
are kept as naturals; the C bitfield keeps r, b below 32 and g below 64. -/
structure Color where
  r : ℕ
  g : ℕ
  b : ℕ
  deriving DecidableEq, Repr

/-- RED from the shim palette. -/
def RED : Color := ⟨28, 10, 6⟩

/-- GREEN from the shim palette. -/
def GREEN : Color := ⟨0, 57, 6⟩

/-- BLUE from the shim palette. -/
def BLUE : Color := ⟨0, 30, 30⟩

/-- YELLOW from the shim palette. -/
def YELLOW : Color := ⟨31, 62, 0⟩

/-- PURPLE from the shim palette. -/
def PURPLE : Color := ⟨24, 30, 31⟩

/-- ORANGE from the shim palette. -/
def ORANGE : Color := ⟨31, 40, 0⟩

/-- WHITE from the shim palette. -/
def WHITE : Color := ⟨31, 63, 31⟩

/-- color_map from main.c: appearance codes 128..134 in order. -/
def color_map : List Color := [RED, GREEN, BLUE, YELLOW, PURPLE, ORANGE, WHITE]

/-- The map produced by init_game in main.c, as a total function on integer
(row, column) indices; cells never written by init_game hold 0. -/
def mapRef (i j : ℤ) : ℕ :=
  if i = 1 ∧ j = 3 then 128
  else if i = 1 ∧ j = 4 then 131
  else if i = 1 ∧ j = 5 then 129
  else if i = 2 ∧ j = 5 then 133
  else if i = 3 ∧ j = 4 then 129
  else if i = 3 ∧ j = 5 then 132
  else if i = 7 ∧ j = 7 then 130
  else if i = 8 ∧ j = 8 then 129
  else if i = 9 ∧ j = 9 then 134
  else 0

/-- One advance of the DDA loop body in raycast_walls (main.c lines 128-136):
per-axis distances to the next boundary target (cell index + 1 for a
nonnegative direction component, cell index - EPSILON for a negative one),
then the full 2D increment along the axis with the smaller parametric step. -/
def ddaStep (rs dir : Vector2) : Vector2 :=
  let distX : ℚ := (⌊rs.x⌋ : ℚ) + (if 0 ≤ dir.x then 1 else -EPSILON) - rs.x
  let distY : ℚ := (⌊rs.y⌋ : ℚ) + (if 0 ≤ dir.y then 1 else -EPSILON) - rs.y
  if |distX / dir.x| < |distY / dir.y| then
    Vector2Add rs ⟨distX, distX * dir.y / dir.x⟩
  else
    Vector2Add rs ⟨distY * dir.x / dir.y, distY⟩

/-- The per-axis parametric step length used by the DDA comparison:
(boundary target - coordinate) / direction component. -/
def stepT (coord d : ℚ) : ℚ :=
  ((⌊coord⌋ : ℚ) + (if 0 ≤ d then 1 else -EPSILON) - coord) / d

/-- Data reported for a wall hit by raycast_walls: the sample point, the cell
indices used to index the map, the map cell value, and the computed distance
(dot product of (sample - camera position) with the camera direction, divided
by ASPECT_RATIO). -/
structure Hit where
  rs : Vector2
  cellx : ℤ
  celly : ℤ
  val : ℕ
  dist : ℚ
  deriving DecidableEq, Repr

/-- Outcome of the traversal: a hit, loop exit past the maximum render
distance, or fuel exhaustion (the fuel parameter exists only because the
embedding of the while loop is a recursion on a fuel counter). -/
inductive RayResult where
  | hit : Hit → RayResult
  | nohit : RayResult
  | fuelOut : RayResult
  deriving DecidableEq, Repr

/-- The while loop of raycast_walls (main.c lines 107-145): while the sample
is within MAX_RENDER_DIST of the camera, report a hit when the sample lies
strictly inside (0, COLS) x (0, ROWS) and the map cell at the floored sample
coordinates is occupied, otherwise advance with the DDA step. -/
def raycastLoop (m : ℤ → ℤ → ℕ) (ppos pdir dir : Vector2) : ℕ → Vector2 → RayResult
  | fuel, rs =>
    if Vector2LengthSq (Vector2Subtract rs ppos) ≤ MAX_RENDER_DIST ^ 2 then
      match fuel with
      | 0 => RayResult.fuelOut
      | Nat.succ fuel =>
        if 0 < rs.x ∧ rs.x < COLS ∧ 0 < rs.y ∧ rs.y < ROWS then
          if m ⌊rs.y⌋ ⌊rs.x⌋ ≠ 0 then
            RayResult.hit ⟨rs, ⌊rs.x⌋, ⌊rs.y⌋, m ⌊rs.y⌋ ⌊rs.x⌋,
              Vector2DotProduct (Vector2Subtract rs ppos) pdir / ASPECT_RATIO⟩
          else raycastLoop m ppos pdir dir fuel (ddaStep rs dir)
        else raycastLoop m ppos pdir dir fuel (ddaStep rs dir)
    else RayResult.nohit

/-- raycast_walls (main.c lines 103-146): substitute EPSILON for an exactly
zero ray direction component, start the sample one EPSILON step ahead of the
camera along the ray, then run the traversal loop. -/
def raycast_walls (m : ℤ → ℤ → ℕ) (p : Player) (dir0 : Vector2) (fuel : ℕ) : RayResult :=
  let dir : Vector2 := ⟨if dir0.x = 0 then EPSILON else dir0.x,
                        if dir0.y = 0 then EPSILON else dir0.y⟩
  raycastLoop m p.pos p.dir dir fuel (Vector2Add p.pos (Vector2Scale dir EPSILON))

/-- The sequence of grid cells (floored sample coordinates) inspected by the
traversal loop of raycast_walls, in visiting order, ending at the first hit or
when the render distance is exceeded. -/
def visitedCells (m : ℤ → ℤ → ℕ) (ppos dir : Vector2) : ℕ → Vector2 → List (ℤ × ℤ)
  | fuel, rs =>
    if Vector2LengthSq (Vector2Subtract rs ppos) ≤ MAX_RENDER_DIST ^ 2 then
      match fuel with
      | 0 => []
      | Nat.succ fuel =>
        (⌊rs.x⌋, ⌊rs.y⌋) ::
          (if (0 < rs.x ∧ rs.x < COLS ∧ 0 < rs.y ∧ rs.y < ROWS) ∧ m ⌊rs.y⌋ ⌊rs.x⌋ ≠ 0
           then []
           else visitedCells m ppos dir fuel (ddaStep rs dir))
    else []

/-- The hit produced by the concrete witness traversal: from the camera at
(1/2, 3/2) facing (1, 0), the reference map is hit at cell (3, 1), which
holds color code 128, at distance 17/12. -/
def hitW : Hit := ⟨⟨3, 600001/400000⟩, 3, 1, 128, 17/12⟩

/-- Slice height computed at a hit (main.c line 114): SCREEN_H / dist. -/
def slice_height (dist : ℚ) : ℚ := SCREEN_H / dist

/-- Brightness falloff computed at a hit (main.c lines 115-116):
1/dist - 0.9, clamped to ≤ 0. -/
def bright_factor (dist : ℚ) : ℚ :=
  if 0 ≤ 1 / dist - 9 / 10 then 0 else 1 / dist - 9 / 10

/-- ColorBrightness from the ESP32 raylib shim (raylib.h lines 577-606):
clamp the factor to [-1, 1]; a negative factor scales each channel by
(1 + factor), a nonnegative one interpolates toward the channel maximum.  The
C cast of the nonnegative float result to unsigned char truncates (= floor),
and the assignment into the 5/6/5-bit field keeps the low bits. -/
def ColorBrightness (color : Color) (factor : ℚ) : Color :=
  let f1 : ℚ := if 1 < factor then 1 else if factor < -1 then -1 else factor
  if f1 < 0 then
    ⟨(⌊(color.r : ℚ) * (1 + f1)⌋).toNat % 32,
     (⌊(color.g : ℚ) * (1 + f1)⌋).toNat % 64,
     (⌊(color.b : ℚ) * (1 + f1)⌋).toNat % 32⟩
  else
    ⟨(⌊(31 - (color.r : ℚ)) * f1 + (color.r : ℚ)⌋).toNat % 32,
     (⌊(63 - (color.g : ℚ)) * f1 + (color.g : ℚ)⌋).toNat % 64,
     (⌊(31 - (color.b : ℚ)) * f1 + (color.b : ℚ)⌋).toNat % 32⟩

/-- The clipped posX of DrawRectangle (raylib.h lines 482-485): a negative
posX is moved to 0. -/
def clipX (posX : ℤ) : ℤ := if posX < 0 then 0 else posX

/-- The clipped posY of DrawRectangle, symmetric to clipX. -/
def clipY (posY : ℤ) : ℤ := if posY < 0 then 0 else posY

/-- The clipped width DrawRectangle ends up with (raylib.h lines 478-506):
shrink by a negative posX, then clamp the right edge to LCD_W. -/
def clippedW (posX width : ℤ) : ℤ :=
  let width1 := if posX < 0 then width + posX else width
  if LCD_W < clipX posX + width1 then LCD_W - clipX posX else width1

/-- The clipped height DrawRectangle ends up with, symmetric to clippedW. -/
def clippedH (posY height : ℤ) : ℤ :=
  let height1 := if posY < 0 then height + posY else height
  if LCD_H < clipY posY + height1 then LCD_H - clipY posY else height1

/-- The pixel coordinates DrawRectangle writes (raylib.h lines 478-506): after
the early return for nonpositive sizes and the clipping steps, all pairs
(posX + x, posY + y) for x below the clipped width and y below the clipped
height.  The framebuffer entry written for pixel (px, py) is py * LCD_W + px. -/
def DrawRectanglePixels (posX posY width height : ℤ) : List (ℤ × ℤ) :=
  if width ≤ 0 ∨ height ≤ 0 then []
  else if clippedW posX width ≤ 0 ∨ clippedH posY height ≤ 0 then []
  else (List.range (clippedH posY height).toNat).flatMap fun (y : ℕ) =>
    (List.range (clippedW posX width).toNat).map fun (x : ℕ) =>
      (clipX posX + (x : ℤ), clipY posY + (y : ℤ))

/-- The loop of draw_walls (main.c lines 170-178), recorded as the list of
(slice_x, alpha) pairs it invokes raycast_walls with: slice_x runs from 0 in
steps of RAY_RES while below SCREEN_W, alpha starts at -FOV/2 and accumulates
alpha_step; the ray direction for a pair is the camera direction rotated by
alpha.  The recursion fuel only bounds the iteration count of the for loop. -/
def draw_walls_aux (alphaStep : ℚ) : ℕ → ℤ → ℚ → List (ℤ × ℚ)
  | 0, _, _ => []
  | Nat.succ n, slice_x, alpha =>
    if slice_x < LCD_W then
      (slice_x, alpha) :: draw_walls_aux alphaStep n (slice_x + RAY_RES) (alpha + alphaStep)
    else []

/-- draw_walls (main.c lines 170-178) for a field-of-view angle fov (the
source uses FOV_ANGLE = PI/3.5; the embedding keeps fov symbolic since pi is
irrational): alpha starts at -fov/2, alpha_step is fov * RAY_RES / SCREEN_W. -/
def draw_walls_rays (fov : ℚ) : List (ℤ × ℚ) :=
  draw_walls_aux (fov * (RAY_RES : ℚ) / SCREEN_W) 240 0 (-(fov / 2))

/-- The key state move_player polls: a, d, w, s, e, q. -/
structure Keys where
  a : Bool
  d : Bool
  w : Bool
  s : Bool
  e : Bool
  q : Bool
  deriving DecidableEq, Repr

/-- move_player (main.c lines 148-168).  dt is the frame delta; ct and st are
the cosine and sine of dt * PLAYER_ROTATION_SPEED, passed explicitly since the
embedding is over ℚ (rotation by the negated angle uses cosine ct and sine
-st).  The strafe rotations by plus and minus PI/2 have exact cosine 0 and
sine plus and minus 1.  The six controls are applied in source order. -/
def move_player (k : Keys) (dt ct st : ℚ) (p : Player) : Player :=
  let p1 := if k.a then { p with dir := Vector2RotateCS p.dir ct (-st) } else p
  let p2 := if k.d then { p1 with dir := Vector2RotateCS p1.dir ct st } else p1
  let p3 := if k.w then
    { p2 with pos := Vector2Add p2.pos (Vector2Scale p2.dir (dt * PLAYER_SPEED)) } else p2
  let p4 := if k.s then
    { p3 with pos := Vector2Add p3.pos (Vector2Scale p3.dir (-(dt * PLAYER_SPEED))) } else p3
  let eMove := fun (pp : Player) =>
    Vector2Add pp.pos (Vector2Scale (Vector2RotateCS pp.dir 0 1) (dt * PLAYER_SPEED))
  let qMove := fun (pp : Player) =>
    Vector2Add pp.pos (Vector2Scale (Vector2RotateCS pp.dir 0 (-1)) (dt * PLAYER_SPEED))
  let p5 := if k.e then { p4 with pos := eMove p4 } else p4
  if k.q then { p5 with pos := qMove p5 } else p5

/-- KEY_A key code. -/
def KEY_A : ℕ := 65

/-- KEY_D key code. -/
def KEY_D : ℕ := 68

/-- KEY_W key code. -/
def KEY_W : ℕ := 87

/-- IsKeyDown from the ESP32 raylib shim (raylib.h lines 564-575).  levelA and
levelD are the gpio input levels of PIN_KEY_A and PIN_KEY_D; the pins are
pulled up, so a pressed button reads level 0 (false).  KEY_W is reported down
exactly when both pins read low; every other key not among W, A, D reads 0. -/
def IsKeyDown (levelA levelD : Bool) (key : ℕ) : Bool :=
  if key = KEY_W then (!levelD) && (!levelA)
  else if key = KEY_A then !levelA
  else if key = KEY_D then !levelD
  else false

/-- The key snapshot move_player sees on the ESP32, obtained by polling
IsKeyDown for each of the six controls (S, E, Q have codes 83, 69, 81). -/
def keysFromPins (levelA levelD : Bool) : Keys :=
  ⟨IsKeyDown levelA levelD KEY_A, IsKeyDown levelA levelD KEY_D,
   IsKeyDown levelA levelD KEY_W, IsKeyDown levelA levelD 83,
   IsKeyDown levelA levelD 69, IsKeyDown levelA levelD 81⟩

/-- Per-axis termination measure for the DDA loop: a count of grid boundaries
the traversal can still cross on this axis before leaving the render range
around the camera, directed by the sign of the direction component. -/
def axisMeasure (base coord d : ℚ) : ℤ :=
  if 0 ≤ d then ⌊base⌋ + 21 - ⌊coord⌋ else ⌊coord⌋ - ⌊base⌋ + 21

/-- Termination measure for the DDA loop: sum of the two axis measures. -/
def rayMeasure (ppos rs dir : Vector2) : ℤ :=
  axisMeasure ppos.x rs.x dir.x + axisMeasure ppos.y rs.y dir.y

/-! ## Theorems -/

/-- The falloff is clamped to ≤ 0 before being applied. -/
theorem bright_factor_nonpos (d : ℚ) : bright_factor d ≤ 0 := by
  unfold bright_factor
  split_ifs with h
  · exact le_rfl
  · linarith [lt_of_not_le h]

/-- For a positive distance the falloff stays strictly above -1, so the shim
clamp of the factor to [-1, 1] never fires on the low side. -/
theorem bright_factor_gt_neg_one (d : ℚ) (hd : 0 < d) : -1 < bright_factor d := by
  have h1 : 0 < 1 / d := by positivity
  unfold bright_factor
  split_ifs with h
  · norm_num
  · linarith

/-- The clamped falloff is antitone in the distance. -/
theorem bright_factor_anti (d1 d2 : ℚ) (h1 : 0 < d1) (h12 : d1 < d2) :
    bright_factor d2 ≤ bright_factor d1 := by
  have hinv : 1 / d2 < 1 / d1 := one_div_lt_one_div_of_lt h1 h12
  unfold bright_factor
  split_ifs with ha hb hb
  · exact le_rfl
  · linarith [lt_of_not_le hb]
  · linarith
  · linarith

/-- For a factor in (-1, 0] and in-range channels, ColorBrightness reduces to
flooring each channel scaled by (1 + factor); the bitfield masks are inert. -/
theorem ColorBrightness_channels (c : Color) (f : ℚ) (hf0 : f ≤ 0) (hf1 : -1 < f)
    (hr : c.r ≤ 31) (hg : c.g ≤ 63) (hb : c.b ≤ 31) :
    ColorBrightness c f = ⟨(⌊(c.r : ℚ) * (1 + f)⌋).toNat,
                           (⌊(c.g : ℚ) * (1 + f)⌋).toNat,
                           (⌊(c.b : ℚ) * (1 + f)⌋).toNat⟩ := by
  have hne1 : ¬ (1 : ℚ) < f := by linarith
  have hne2 : ¬ f < -1 := by linarith
  have hmod : ∀ (ch bound : ℕ), ch ≤ bound →
      (⌊(ch : ℚ) * (1 + f)⌋).toNat % (bound + 1) = (⌊(ch : ℚ) * (1 + f)⌋).toNat := by
    intro ch bound hch
    apply Nat.mod_eq_of_lt
    have hle : (ch : ℚ) * (1 + f) ≤ (ch : ℚ) := by nlinarith [Nat.cast_nonneg (α := ℚ) ch]
    have hfl : ⌊(ch : ℚ) * (1 + f)⌋ ≤ (ch : ℤ) := by
      have := Int.floor_le_floor hle
      simpa using this
    have : (⌊(ch : ℚ) * (1 + f)⌋).toNat ≤ ch := by omega
    omega
  by_cases hneg : f < 0
  · simp only [ColorBrightness, if_neg hne1, if_neg hne2, if_pos hneg]
    refine Color.mk.injEq _ _ _ _ _ _ ▸ ?_
    exact ⟨hmod c.r 31 hr, hmod c.g 63 hg, hmod c.b 31 hb⟩
  · have hf : f = 0 := le_antisymm hf0 (le_of_not_lt hneg)
    subst hf
    simp only [ColorBrightness, if_neg hne1, if_neg hne2, lt_irrefl, if_false]
    have hch : ∀ ch : ℕ, (⌊(31 - (ch : ℚ)) * 0 + (ch : ℚ)⌋) = (ch : ℤ) := by
      intro ch
      rw [mul_zero, zero_add, Int.floor_natCast]
    have hch2 : ∀ ch : ℕ, (⌊(63 - (ch : ℚ)) * 0 + (ch : ℚ)⌋) = (ch : ℤ) := by
      intro ch
      rw [mul_zero, zero_add, Int.floor_natCast]
    have hrhs : ∀ ch : ℕ, (⌊(ch : ℚ) * (1 + 0)⌋).toNat = ch := by
      intro ch
      rw [add_zero, mul_one, Int.floor_natCast, Int.toNat_natCast]
    rw [hch c.r, hch2 c.g, hch c.b, hrhs c.r, hrhs c.g, hrhs c.b]
    simp only [Int.toNat_natCast]
    congr 1
    · omega
    · omega
    · omega

/-- Helper: scaled-and-floored channels are monotone in the factor and never
exceed the base channel. -/
theorem channel_le (ch : ℕ) (f1 f2 : ℚ) (hle : f2 ≤ f1) (h1 : f1 ≤ 0) (h2 : -1 < f2) :
    (⌊(ch : ℚ) * (1 + f2)⌋).toNat ≤ (⌊(ch : ℚ) * (1 + f1)⌋).toNat ∧
    (⌊(ch : ℚ) * (1 + f1)⌋).toNat ≤ ch := by
  constructor
  · apply Int.toNat_le_toNat
    apply Int.floor_le_floor
    nlinarith [Nat.cast_nonneg (α := ℚ) ch]
  · have hle2 : (ch : ℚ) * (1 + f1) ≤ (ch : ℚ) := by
      nlinarith [Nat.cast_nonneg (α := ℚ) ch]
    have hfl : ⌊(ch : ℚ) * (1 + f1)⌋ ≤ (ch : ℤ) := by
      have := Int.floor_le_floor hle2
      simpa using this
    omega

/-- Claim C4: for a fixed appearance and hit distances 0 < d1 < d2, the
projected slice height SCREEN_H / d strictly decreases from d1 to d2; the
falloff factor 1/d - 0.9 is clamped to ≤ 0 before being applied; no output
channel of the shaded color exceeds the corresponding base channel, and every
output channel is non-increasing in the distance. -/
theorem C4_projector_monotone (c : Color) (d1 d2 : ℚ)
    (hr : c.r ≤ 31) (hg : c.g ≤ 63) (hb : c.b ≤ 31)
    (hd1 : 0 < d1) (hd12 : d1 < d2) :
    slice_height d2 < slice_height d1 ∧
    bright_factor d1 ≤ 0 ∧ bright_factor d2 ≤ 0 ∧
    (ColorBrightness c (bright_factor d1)).r ≤ c.r ∧
    (ColorBrightness c (bright_factor d1)).g ≤ c.g ∧
    (ColorBrightness c (bright_factor d1)).b ≤ c.b ∧
    (ColorBrightness c (bright_factor d2)).r ≤ (ColorBrightness c (bright_factor d1)).r ∧
    (ColorBrightness c (bright_factor d2)).g ≤ (ColorBrightness c (bright_factor d1)).g ∧
    (ColorBrightness c (bright_factor d2)).b ≤ (ColorBrightness c (bright_factor d1)).b := by
  have hd2 : 0 < d2 := lt_trans hd1 hd12
  have hb1 := bright_factor_nonpos d1
  have hb2 := bright_factor_nonpos d2
  have hg1 := bright_factor_gt_neg_one d1 hd1
  have hg2 := bright_factor_gt_neg_one d2 hd2
  have hanti := bright_factor_anti d1 d2 hd1 hd12
  have hc1 := ColorBrightness_channels c (bright_factor d1) hb1 hg1 hr hg hb
  have hc2 := ColorBrightness_channels c (bright_factor d2) hb2 hg2 hr hg hb
  refine ⟨?_, hb1, hb2, ?_, ?_, ?_, ?_, ?_, ?_⟩
  · unfold slice_height SCREEN_H
    exact div_lt_div_of_pos_left (by norm_num) hd1 hd12
  · rw [hc1]; exact (channel_le c.r (bright_factor d1) (bright_factor d1) le_rfl hb1 hg1).2
  · rw [hc1]; exact (channel_le c.g (bright_factor d1) (bright_factor d1) le_rfl hb1 hg1).2
  · rw [hc1]; exact (channel_le c.b (bright_factor d1) (bright_factor d1) le_rfl hb1 hg1).2
  · rw [hc1, hc2]; exact (channel_le c.r (bright_factor d1) (bright_factor d2) hanti hb1 hg2).1
  · rw [hc1, hc2]; exact (channel_le c.g (bright_factor d1) (bright_factor d2) hanti hb1 hg2).1
  · rw [hc1, hc2]; exact (channel_le c.b (bright_factor d1) (bright_factor d2) hanti hb1 hg2).1

/-- Witness for C4 at the base color RED and distances 1 and 2. -/
theorem C4_witness :
    (0 : ℚ) < 1 ∧ (1 : ℚ) < 2 ∧
    (slice_height 2 < slice_height 1 ∧
     bright_factor 1 ≤ 0 ∧ bright_factor 2 ≤ 0 ∧
     (ColorBrightness RED (bright_factor 1)).r ≤ RED.r ∧
     (ColorBrightness RED (bright_factor 1)).g ≤ RED.g ∧
     (ColorBrightness RED (bright_factor 1)).b ≤ RED.b ∧
     (ColorBrightness RED (bright_factor 2)).r ≤ (ColorBrightness RED (bright_factor 1)).r ∧
     (ColorBrightness RED (bright_factor 2)).g ≤ (ColorBrightness RED (bright_factor 1)).g ∧
     (ColorBrightness RED (bright_factor 2)).b ≤ (ColorBrightness RED (bright_factor 1)).b) :=
  ⟨by norm_num, by norm_num,
   C4_projector_monotone RED 1 2 (by decide) (by decide) (by decide)
     (by norm_num) (by norm_num)⟩

/-- The clipped origin is nonnegative. -/
theorem clipX_nonneg (posX : ℤ) : 0 ≤ clipX posX := by
  unfold clipX
  split_ifs <;> omega

/-- The clipped right edge stays within LCD_W. -/
theorem clippedW_le (posX width : ℤ) : clipX posX + clippedW posX width ≤ LCD_W := by
  simp only [clippedW, clipX, LCD_W]
  split_ifs <;> omega

/-- The clipped origin is nonnegative (y axis). -/
theorem clipY_nonneg (posY : ℤ) : 0 ≤ clipY posY := by
  unfold clipY
  split_ifs <;> omega

/-- The clipped bottom edge stays within LCD_H. -/
theorem clippedH_le (posY height : ℤ) : clipY posY + clippedH posY height ≤ LCD_H := by
  simp only [clippedH, clipY, LCD_H]
  split_ifs <;> omega

/-- Claim C8: DrawRectangle clips itself to the screen: for every posX, posY,
width, height (including degenerate and off-screen ones) each written pixel
lies in [0, LCD_W) x [0, LCD_H), and nothing is written when the clipped
width or height is ≤ 0. -/
theorem C8_fill_rect_clips (posX posY width height : ℤ) :
    (∀ p ∈ DrawRectanglePixels posX posY width height,
        0 ≤ p.1 ∧ p.1 < LCD_W ∧ 0 ≤ p.2 ∧ p.2 < LCD_H) ∧
    (clippedW posX width ≤ 0 ∨ clippedH posY height ≤ 0 →
        DrawRectanglePixels posX posY width height = []) := by
  constructor
  · intro p hp
    unfold DrawRectanglePixels at hp
    by_cases h0 : width ≤ 0 ∨ height ≤ 0
    · simp [h0] at hp
    · rw [if_neg h0] at hp
      by_cases h1 : clippedW posX width ≤ 0 ∨ clippedH posY height ≤ 0
      · simp [h1] at hp
      · rw [if_neg h1] at hp
        obtain ⟨y, hy, hp2⟩ := List.mem_flatMap.mp hp
        obtain ⟨x, hx, hpe⟩ := List.mem_map.mp hp2
        rw [List.mem_range] at hy hx
        subst hpe
        push_neg at h1
        obtain ⟨hw1, hw2⟩ := h1
        have hwc := Int.toNat_of_nonneg (le_of_lt hw1)
        have hhc := Int.toNat_of_nonneg (le_of_lt hw2)
        have hxZ : (x : ℤ) < clippedW posX width := by
          rw [← hwc]
          exact_mod_cast hx
        have hyZ : (y : ℤ) < clippedH posY height := by
          rw [← hhc]
          exact_mod_cast hy
        have e1 := clipX_nonneg posX
        have e2 := clippedW_le posX width
        have e3 := clipY_nonneg posY
        have e4 := clippedH_le posY height
        refine ⟨by omega, by omega, by omega, by omega⟩
  · intro h
    unfold DrawRectanglePixels
    split_ifs <;> rfl

/-- Witness for C8: a rectangle overlapping the left edge writes pixel (3, 2)
inside the screen, and a rectangle fully right of the screen writes nothing. -/
theorem C8_witness :
    ((3, 2) ∈ DrawRectanglePixels (-5) 2 10 10 ∧
      (0 ≤ ((3, 2) : ℤ × ℤ).1 ∧ ((3, 2) : ℤ × ℤ).1 < LCD_W ∧
       0 ≤ ((3, 2) : ℤ × ℤ).2 ∧ ((3, 2) : ℤ × ℤ).2 < LCD_H)) ∧
    ((clippedW 300 10 ≤ 0 ∨ clippedH 0 10 ≤ 0) ∧
      DrawRectanglePixels 300 0 10 10 = []) :=
  ⟨⟨by decide, (C8_fill_rect_clips (-5) 2 10 10).1 (3, 2) (by decide)⟩,
   ⟨by decide, (C8_fill_rect_clips 300 0 10 10).2 (by decide)⟩⟩

/-- Rotating a vector by an angle and then by its negation returns the
vector, for any cosine-sine pair on the unit circle. -/
theorem rot_rot_cancel (v : Vector2) (ct st : ℚ) (h : ct ^ 2 + st ^ 2 = 1) :
    Vector2RotateCS (Vector2RotateCS v ct (-st)) ct st = v := by
  obtain ⟨x, y⟩ := v
  simp only [Vector2RotateCS, Vector2.mk.injEq]
  constructor
  · linear_combination x * h
  · linear_combination y * h

/-- Claim C9: in the ESP32 input shim the move-forward control (KEY_W) reads
active exactly when both physical buttons are pressed (both pulled-up pins
read low); hence whenever move-forward is active, rotate-left (KEY_A) and
rotate-right (KEY_D) are also reported active, and move_player applies the
two equal-and-opposite rotations along with the forward translation: the
direction returns to its original value and the position advances along it. -/
theorem C9_forward_requires_both (levelA levelD : Bool) (dt ct st : ℚ) (p : Player)
    (hcs : ct ^ 2 + st ^ 2 = 1) :
    (IsKeyDown levelA levelD KEY_W = true ↔ levelA = false ∧ levelD = false) ∧
    (IsKeyDown levelA levelD KEY_W = true →
      IsKeyDown levelA levelD KEY_A = true ∧ IsKeyDown levelA levelD KEY_D = true ∧
      move_player (keysFromPins levelA levelD) dt ct st p =
        { pos := Vector2Add p.pos (Vector2Scale p.dir (dt * PLAYER_SPEED)),
          dir := p.dir }) := by
  constructor
  · cases levelA <;> cases levelD <;> decide
  · intro hw
    have hA : levelA = false ∧ levelD = false := by
      cases levelA <;> cases levelD <;> simp_all [IsKeyDown, KEY_W]
    obtain ⟨rfl, rfl⟩ := hA
    refine ⟨by decide, by decide, ?_⟩
    have hk : keysFromPins false false = ⟨true, true, true, false, false, false⟩ := by decide
    rw [hk]
    have hd := rot_rot_cancel p.dir ct st hcs
    obtain ⟨ppos, pdir⟩ := p
    simp only at hd
    simp [move_player, hd]

/-- Witness for C9 at both buttons pressed, dt = 1, rotation cosine 1 and
sine 0, camera at the origin facing (1, 0). -/
theorem C9_witness :
    (1 : ℚ) ^ 2 + (0 : ℚ) ^ 2 = 1 ∧
    IsKeyDown false false KEY_W = true ∧
    IsKeyDown false false KEY_A = true ∧ IsKeyDown false false KEY_D = true ∧
    move_player (keysFromPins false false) 1 1 0 ⟨⟨0, 0⟩, ⟨1, 0⟩⟩ =
      { pos := Vector2Add (⟨0, 0⟩ : Vector2) (Vector2Scale (⟨1, 0⟩ : Vector2) (1 * PLAYER_SPEED)),
        dir := (⟨1, 0⟩ : Vector2) } := by
  have hw : IsKeyDown false false KEY_W = true := by decide
  have h := (C9_forward_requires_both false false 1 1 0 ⟨⟨0, 0⟩, ⟨1, 0⟩⟩ (by norm_num)).2 hw
  exact ⟨by norm_num, hw, h.1, h.2.1, h.2.2⟩

/-- Counterexample for claim C7: with rotate-left (A) and move-forward (W)
enabled in the same frame (dt = 2/5 so the translation scale dt * PLAYER_SPEED
is 1; rotation cosine 3/5 and sine 4/5), the combined position change is the
step along the already-rotated direction (3/5, -4/5), while A alone moves the
position not at all and W alone moves it by (1, 0); the combined pose change
is therefore not the vector sum of the individual changes. -/
theorem C7_counterexample :
    (move_player ⟨true, false, true, false, false, false⟩ (2/5) (3/5) (4/5)
        ⟨⟨0, 0⟩, ⟨1, 0⟩⟩).pos = ⟨3/5, -4/5⟩ ∧
    (move_player ⟨true, false, false, false, false, false⟩ (2/5) (3/5) (4/5)
        ⟨⟨0, 0⟩, ⟨1, 0⟩⟩).pos = ⟨0, 0⟩ ∧
    (move_player ⟨false, false, true, false, false, false⟩ (2/5) (3/5) (4/5)
        ⟨⟨0, 0⟩, ⟨1, 0⟩⟩).pos = ⟨1, 0⟩ ∧
    (move_player ⟨true, false, true, false, false, false⟩ (2/5) (3/5) (4/5)
        ⟨⟨0, 0⟩, ⟨1, 0⟩⟩).pos ≠
      Vector2Add (⟨0, 0⟩ : Vector2)
        (Vector2Add
          (Vector2Subtract (move_player ⟨true, false, false, false, false, false⟩ (2/5) (3/5)
              (4/5) ⟨⟨0, 0⟩, ⟨1, 0⟩⟩).pos ⟨0, 0⟩)
          (Vector2Subtract (move_player ⟨false, false, true, false, false, false⟩ (2/5) (3/5)
              (4/5) ⟨⟨0, 0⟩, ⟨1, 0⟩⟩).pos ⟨0, 0⟩)) := by
  refine ⟨?_, ?_, ?_, ?_⟩ <;>
    simp [move_player, Vector2RotateCS, Vector2Add, Vector2Scale, Vector2Subtract,
      PLAYER_SPEED, Vector2.mk.injEq] <;>
    norm_num

/-- Claim C7 (amended): the four translation controls are applied additively
and commutatively: for any frame with the rotation controls inactive, the
direction is unchanged and the position displacement equals the vector sum of
the displacements each active translation control would produce alone (in
particular forward plus strafe-right); a rotation active in the same frame,
however, rotates the direction before the translations use it, so a combined
rotation-and-translation frame is not the sum of the separate changes. -/
theorem C7_translations_additive (w s e q : Bool) (dt ct st : ℚ) (p : Player) :
    (move_player ⟨false, false, w, s, e, q⟩ dt ct st p).dir = p.dir ∧
    (move_player ⟨false, false, w, s, e, q⟩ dt ct st p).pos =
      Vector2Add p.pos (Vector2Add
        (Vector2Add
          (Vector2Subtract
            (move_player ⟨false, false, w, false, false, false⟩ dt ct st p).pos p.pos)
          (Vector2Subtract
            (move_player ⟨false, false, false, s, false, false⟩ dt ct st p).pos p.pos))
        (Vector2Add
          (Vector2Subtract
            (move_player ⟨false, false, false, false, e, false⟩ dt ct st p).pos p.pos)
          (Vector2Subtract
            (move_player ⟨false, false, false, false, false, q⟩ dt ct st p).pos p.pos))) := by
  obtain ⟨⟨px, py⟩, ⟨dx, dy⟩⟩ := p
  cases w <;> cases s <;> cases e <;> cases q <;>
    simp [move_player, Vector2Add, Vector2Subtract, Vector2Scale, Vector2RotateCS,
      Vector2.mk.injEq] <;>
    constructor <;> ring

/-- Unrolling of the draw_walls column loop: with fuel at least the remaining
column count k (slice_x = LCD_W - RAY_RES * k), the loop produces exactly the
k pairs (slice_x + RAY_RES * i, alpha + i * alphaStep). -/
theorem draw_walls_aux_eq (st : ℚ) :
    ∀ (k fuel : ℕ) (sx : ℤ) (al : ℚ), k ≤ fuel → sx = 240 - 2 * (k : ℤ) →
      draw_walls_aux st fuel sx al
        = (List.range k).map (fun (i : ℕ) => (sx + 2 * (i : ℤ), al + (i : ℚ) * st)) := by
  intro k
  induction k with
  | zero =>
    intro fuel sx al hk hsx
    subst hsx
    cases fuel with
    | zero => rfl
    | succ n =>
      rw [draw_walls_aux]
      rw [if_neg (by norm_num [LCD_W])]
      simp
  | succ k ih =>
    intro fuel sx al hk hsx
    cases fuel with
    | zero => omega
    | succ n =>
      have hcond : sx < LCD_W := by
        simp only [LCD_W]
        omega
      rw [draw_walls_aux, if_pos hcond]
      rw [ih n (sx + RAY_RES) (al + st) (by omega)
        (by rw [hsx]; simp only [RAY_RES]; push_cast; ring)]
      rw [List.range_succ_eq_map, List.map_cons, List.map_map]
      congr 1
      · simp
      · apply List.map_congr_left
        intro i _
        simp only [Function.comp_apply, RAY_RES, Prod.mk.injEq]
        constructor
        · push_cast
          ring
        · push_cast
          ring

/-- Claim C6: per frame, draw_walls casts exactly N = SCREEN_W / RAY_RES = 120
rays, one per column 0, RAY_RES, 2 * RAY_RES, ...; the i-th angle offset is
-fov/2 + i * (fov * RAY_RES / SCREEN_W), evenly spaced, starting at -fov/2 and
sweeping linearly so that the sweep reaches +fov/2 at its exclusive endpoint
i = N. -/
theorem C6_ray_fan (fov : ℚ) :
    (draw_walls_rays fov).length = 120 ∧
    (120 : ℚ) = SCREEN_W / (RAY_RES : ℚ) ∧
    draw_walls_rays fov = (List.range 120).map
      (fun (i : ℕ) => (2 * (i : ℤ), -(fov / 2) + (i : ℚ) * (fov * (RAY_RES : ℚ) / SCREEN_W))) ∧
    -(fov / 2) + (0 : ℚ) * (fov * (RAY_RES : ℚ) / SCREEN_W) = -(fov / 2) ∧
    -(fov / 2) + (120 : ℚ) * (fov * (RAY_RES : ℚ) / SCREEN_W) = fov / 2 := by
  have hmain := draw_walls_aux_eq (fov * (RAY_RES : ℚ) / SCREEN_W) 120 240 0 (-(fov / 2))
    (by norm_num) (by norm_num)
  have hrays : draw_walls_rays fov = (List.range 120).map
      (fun (i : ℕ) => (2 * (i : ℤ), -(fov / 2) + (i : ℚ) * (fov * (RAY_RES : ℚ) / SCREEN_W))) := by
    rw [draw_walls_rays, hmain]
    apply List.map_congr_left
    intro i _
    simp
  refine ⟨?_, by norm_num [SCREEN_W, RAY_RES], hrays, by ring, ?_⟩
  · rw [hrays]
    simp
  · rw [SCREEN_W, RAY_RES]
    push_cast
    ring

/-- One-step unfolding of the traversal loop at positive fuel. -/
theorem raycastLoop_succ (m : ℤ → ℤ → ℕ) (ppos pdir dir : Vector2) (fuel : ℕ) (rs : Vector2) :
    raycastLoop m ppos pdir dir (fuel + 1) rs =
      if Vector2LengthSq (Vector2Subtract rs ppos) ≤ MAX_RENDER_DIST ^ 2 then
        if 0 < rs.x ∧ rs.x < COLS ∧ 0 < rs.y ∧ rs.y < ROWS then
          if m ⌊rs.y⌋ ⌊rs.x⌋ ≠ 0 then
            RayResult.hit ⟨rs, ⌊rs.x⌋, ⌊rs.y⌋, m ⌊rs.y⌋ ⌊rs.x⌋,
              Vector2DotProduct (Vector2Subtract rs ppos) pdir / ASPECT_RATIO⟩
          else raycastLoop m ppos pdir dir fuel (ddaStep rs dir)
        else raycastLoop m ppos pdir dir fuel (ddaStep rs dir)
      else RayResult.nohit := rfl

/-- Unfolding of the traversal loop at zero fuel. -/
theorem raycastLoop_zero (m : ℤ → ℤ → ℕ) (ppos pdir dir : Vector2) (rs : Vector2) :
    raycastLoop m ppos pdir dir 0 rs =
      if Vector2LengthSq (Vector2Subtract rs ppos) ≤ MAX_RENDER_DIST ^ 2 then
        RayResult.fuelOut
      else RayResult.nohit := rfl

/-- Any hit reported by the traversal loop is built from a sample inside the
valid range: the cell indices are the floored sample coordinates, the map
value there is nonzero and recorded, and the distance is the dot product of
(sample - camera) with the camera direction over ASPECT_RATIO. -/
theorem raycastLoop_hit_spec (m : ℤ → ℤ → ℕ) (ppos pdir dir : Vector2) :
    ∀ (fuel : ℕ) (rs : Vector2) (h : Hit),
      raycastLoop m ppos pdir dir fuel rs = RayResult.hit h →
      h.cellx = ⌊h.rs.x⌋ ∧ h.celly = ⌊h.rs.y⌋ ∧
      h.val = m h.celly h.cellx ∧ h.val ≠ 0 ∧
      (0 < h.rs.x ∧ h.rs.x < COLS ∧ 0 < h.rs.y ∧ h.rs.y < ROWS) ∧
      h.dist = Vector2DotProduct (Vector2Subtract h.rs ppos) pdir / ASPECT_RATIO := by
  intro fuel
  induction fuel with
  | zero =>
    intro rs h hh
    rw [raycastLoop_zero] at hh
    split_ifs at hh <;> exact absurd hh (by simp)
  | succ n ih =>
    intro rs h hh
    rw [raycastLoop_succ] at hh
    split_ifs at hh with h1 h2 h3
    · injection hh with h4
      subst h4
      exact ⟨rfl, rfl, rfl, h3, h2, rfl⟩
    · exact ih _ h hh
    · exact ih _ h hh

/-- Claim C3: raycast_walls reports a hit only when the sample point lies
strictly inside (0, COLS) x (0, ROWS); the map indices are then the floored
sample coordinates, which lie inside [0, COLS) x [0, ROWS), so the map array
is never indexed out of range and no wall hit is ever reported for a position
outside the map. -/
theorem C3_hit_in_bounds (m : ℤ → ℤ → ℕ) (p : Player) (dir0 : Vector2) (fuel : ℕ) (h : Hit)
    (hh : raycast_walls m p dir0 fuel = RayResult.hit h) :
    (0 < h.rs.x ∧ h.rs.x < COLS ∧ 0 < h.rs.y ∧ h.rs.y < ROWS) ∧
    h.cellx = ⌊h.rs.x⌋ ∧ h.celly = ⌊h.rs.y⌋ ∧
    0 ≤ h.cellx ∧ h.cellx < 10 ∧ 0 ≤ h.celly ∧ h.celly < 10 := by
  simp only [raycast_walls] at hh
  obtain ⟨hcx, hcy, hval, hne, hbounds, hdist⟩ := raycastLoop_hit_spec _ _ _ _ _ _ _ hh
  obtain ⟨hx0, hxC, hy0, hyR⟩ := hbounds
  norm_num [COLS] at hxC
  norm_num [ROWS] at hyR
  refine ⟨⟨hx0, by norm_num [COLS]; exact hxC, hy0, by norm_num [ROWS]; exact hyR⟩,
    hcx, hcy, ?_, ?_, ?_, ?_⟩
  · rw [hcx]
    exact Int.floor_nonneg.mpr (le_of_lt hx0)
  · rw [hcx]
    exact Int.floor_lt.mpr (by exact_mod_cast hxC)
  · rw [hcy]
    exact Int.floor_nonneg.mpr (le_of_lt hy0)
  · rw [hcy]
    exact Int.floor_lt.mpr (by exact_mod_cast hyR)

/-- Claim C10: every occupied cell written by init_game carries a color code:
it is at least 128 and its offset indexes into color_map; consequently every
hit against the reference map carries a color code, so the color branch of
raycast_walls is taken and the texture stub is never reached. -/
theorem C10_ref_map_colors (p : Player) (dir0 : Vector2) (fuel : ℕ) (h : Hit)
    (hh : raycast_walls mapRef p dir0 fuel = RayResult.hit h) :
    (∀ i j : ℤ, mapRef i j ≠ 0 → 128 ≤ mapRef i j ∧ mapRef i j - 128 < color_map.length) ∧
    color_map.length = 7 ∧
    128 ≤ h.val ∧ h.val - 128 < color_map.length := by
  have hlen : color_map.length = 7 := by
    simp [color_map]
  have hcases : ∀ i j : ℤ, mapRef i j = 0 ∨ (128 ≤ mapRef i j ∧ mapRef i j - 128 < 7) := by
    intro i j
    unfold mapRef
    split_ifs <;> simp
  have hmap : ∀ i j : ℤ, mapRef i j ≠ 0 →
      128 ≤ mapRef i j ∧ mapRef i j - 128 < color_map.length := by
    intro i j hij
    rw [hlen]
    rcases hcases i j with h0 | hok
    · exact absurd h0 hij
    · exact hok
  simp only [raycast_walls] at hh
  obtain ⟨hcx, hcy, hval, hne, hbounds, hdist⟩ := raycastLoop_hit_spec _ _ _ _ _ _ _ hh
  rw [hval] at hne ⊢
  exact ⟨hmap, hlen, (hmap _ _ hne).1, (hmap _ _ hne).2⟩

/-- The per-axis parametric step is positive for a nonzero direction
component: for a positive component the boundary target lies strictly ahead,
for a negative one strictly behind, and dividing by the component makes the
parameter positive either way. -/
theorem stepT_pos (coord d : ℚ) (hd : d ≠ 0) : 0 < stepT coord d := by
  unfold stepT EPSILON
  rcases lt_or_gt_of_ne hd with hneg | hpos
  · rw [if_neg (not_le.mpr hneg)]
    apply div_pos_iff.mpr
    refine Or.inr ⟨?_, hneg⟩
    have := Int.floor_le coord
    linarith
  · rw [if_pos (le_of_lt hpos)]
    apply div_pos_iff.mpr
    refine Or.inl ⟨?_, hpos⟩
    have := Int.lt_floor_add_one coord
    linarith

/-- Multiplying the parametric step back by the direction component recovers
the coordinate distance to the boundary target. -/
theorem stepT_mul (coord d : ℚ) (hd : d ≠ 0) :
    d * stepT coord d = (⌊coord⌋ : ℚ) + (if 0 ≤ d then 1 else -EPSILON) - coord := by
  unfold stepT
  field_simp

/-- Characterization of one DDA advance (main.c lines 128-136) for nonzero
direction components: both per-axis parametric steps are positive, the sample
moves along the ray by exactly the smaller of the two (both coordinates
together), and the stepped axis lands exactly on its boundary target — the
next grid line for a nonnegative component, EPSILON past the crossed grid
line for a negative one. -/
theorem ddaStep_spec (rs dir : Vector2) (hx : dir.x ≠ 0) (hy : dir.y ≠ 0) :
    0 < stepT rs.x dir.x ∧ 0 < stepT rs.y dir.y ∧
    ddaStep rs dir
      = Vector2Add rs (Vector2Scale dir (min (stepT rs.x dir.x) (stepT rs.y dir.y))) ∧
    (stepT rs.x dir.x < stepT rs.y dir.y →
      (ddaStep rs dir).x = (⌊rs.x⌋ : ℚ) + (if 0 ≤ dir.x then 1 else -EPSILON)) ∧
    (stepT rs.y dir.y ≤ stepT rs.x dir.x →
      (ddaStep rs dir).y = (⌊rs.y⌋ : ℚ) + (if 0 ≤ dir.y then 1 else -EPSILON)) := by
  have htx := stepT_pos rs.x dir.x hx
  have hty := stepT_pos rs.y dir.y hy
  have habs : (|((⌊rs.x⌋ : ℚ) + (if 0 ≤ dir.x then 1 else -EPSILON) - rs.x) / dir.x|
        < |((⌊rs.y⌋ : ℚ) + (if 0 ≤ dir.y then 1 else -EPSILON) - rs.y) / dir.y|)
      ↔ stepT rs.x dir.x < stepT rs.y dir.y := by
    have e1 : |stepT rs.x dir.x| = stepT rs.x dir.x := abs_of_pos htx
    have e2 : |stepT rs.y dir.y| = stepT rs.y dir.y := abs_of_pos hty
    rw [show ((⌊rs.x⌋ : ℚ) + (if 0 ≤ dir.x then 1 else -EPSILON) - rs.x) / dir.x
        = stepT rs.x dir.x from rfl,
      show ((⌊rs.y⌋ : ℚ) + (if 0 ≤ dir.y then 1 else -EPSILON) - rs.y) / dir.y
        = stepT rs.y dir.y from rfl, e1, e2]
  refine ⟨htx, hty, ?_, ?_, ?_⟩
  · simp only [ddaStep]
    by_cases hc : stepT rs.x dir.x < stepT rs.y dir.y
    · rw [if_pos (habs.mpr hc), min_eq_left (le_of_lt hc)]
      rw [← stepT_mul rs.x dir.x hx]
      simp only [Vector2Add, Vector2Scale, Vector2.mk.injEq]
      constructor
      · ring
      · field_simp
        ring
    · rw [if_neg (fun hlt => hc (habs.mp hlt)), min_eq_right (le_of_not_lt hc)]
      rw [← stepT_mul rs.y dir.y hy]
      simp only [Vector2Add, Vector2Scale, Vector2.mk.injEq]
      constructor
      · field_simp
        ring
      · ring
  · intro hlt
    simp only [ddaStep]
    rw [if_pos (habs.mpr hlt)]
    simp only [Vector2Add]
    ring
  · intro hle
    simp only [ddaStep]
    rw [if_neg (fun hc => absurd (habs.mp hc) (not_lt.mpr hle))]
    simp only [Vector2Add]
    ring

/-- Adding two scalar steps along the same direction adds the scalars. -/
theorem vadd_scale (v d : Vector2) (a b : ℚ) :
    Vector2Add (Vector2Add v (Vector2Scale d a)) (Vector2Scale d b)
      = Vector2Add v (Vector2Scale d (a + b)) := by
  simp only [Vector2Add, Vector2Scale, Vector2.mk.injEq]
  constructor <;> ring

/-- Along the traversal every sample stays on the ray: if the loop starts at
ppos + S * dir with S > 0 and reports a hit, the hit sample is ppos + T * dir
for some T > 0. -/
theorem raycastLoop_hit_on_ray (m : ℤ → ℤ → ℕ) (ppos pdir dir : Vector2)
    (hx : dir.x ≠ 0) (hy : dir.y ≠ 0) :
    ∀ (fuel : ℕ) (rs : Vector2) (S : ℚ) (h : Hit), 0 < S →
      rs = Vector2Add ppos (Vector2Scale dir S) →
      raycastLoop m ppos pdir dir fuel rs = RayResult.hit h →
      ∃ T : ℚ, 0 < T ∧ h.rs = Vector2Add ppos (Vector2Scale dir T) := by
  intro fuel
  induction fuel with
  | zero =>
    intro rs S h hS hrs hh
    rw [raycastLoop_zero] at hh
    split_ifs at hh <;> exact absurd hh (by simp)
  | succ n ih =>
    intro rs S h hS hrs hh
    rw [raycastLoop_succ] at hh
    obtain ⟨htx, hty, hmin, hlx, hly⟩ := ddaStep_spec rs dir hx hy
    split_ifs at hh with h1 h2 h3
    · injection hh with h4
      subst h4
      exact ⟨S, hS, hrs⟩
    · refine ih (ddaStep rs dir) (S + min (stepT rs.x dir.x) (stepT rs.y dir.y)) h
        (by positivity) ?_ hh
      rw [hmin, hrs, vadd_scale]
    · refine ih (ddaStep rs dir) (S + min (stepT rs.x dir.x) (stepT rs.y dir.y)) h
        (by positivity) ?_ hh
      rw [hmin, hrs, vadd_scale]

/-- Positivity of the dot product between the camera direction and the
per-column ray direction after the zero-component epsilon substitution, for a
unit camera direction and a rotation whose cosine is at least 9/10 (as is the
case for every angle offset of magnitude at most FOV/2 = pi/7). -/
theorem rot_subst_dot_pos (d : Vector2) (c s : ℚ) (hunit : d.x ^ 2 + d.y ^ 2 = 1)
    (hcs : c ^ 2 + s ^ 2 = 1) (hc : 9 / 10 ≤ c) :
    0 < Vector2DotProduct
      ⟨if (Vector2RotateCS d c s).x = 0 then EPSILON else (Vector2RotateCS d c s).x,
       if (Vector2RotateCS d c s).y = 0 then EPSILON else (Vector2RotateCS d c s).y⟩ d := by
  obtain ⟨x, y⟩ := d
  simp only [Vector2RotateCS, Vector2DotProduct, EPSILON] at *
  split_ifs with h0x h0y h0y
  · exfalso
    have hsq : (x * c - y * s) ^ 2 + (x * s + y * c) ^ 2 = 1 := by
      linear_combination (c ^ 2 + s ^ 2) * hunit + hcs
    rw [h0x, h0y] at hsq
    norm_num at hsq
  · have heq : 1 / 1000000 * x + (x * s + y * c) * y = 1 / 1000000 * x + c := by
      linear_combination (-x) * h0x + c * hunit
    rw [heq]
    nlinarith [sq_nonneg (x + 1), sq_nonneg y]
  · have heq : (x * c - y * s) * x + 1 / 1000000 * y = c + 1 / 1000000 * y := by
      linear_combination (-y) * h0y + c * hunit
    rw [heq]
    nlinarith [sq_nonneg (y + 1), sq_nonneg x]
  · have heq : (x * c - y * s) * x + (x * s + y * c) * y = c := by
      linear_combination c * hunit
    rw [heq]
    linarith

/-- Claim C2: every hit reported by raycast_walls carries a strictly positive
distance, when the ray direction is the (unit) camera direction rotated by an
angle of cosine at least 9/10 (which covers every per-column offset of
magnitude at most FOV/2 = pi/7 < pi/2): the traversal sample starts a
positive epsilon ahead of the camera along the substituted ray direction and
stays on that ray, so the projection onto the camera direction divided by
the ASPECT_RATIO constant is positive. -/
theorem C2_hit_dist_pos (m : ℤ → ℤ → ℕ) (p : Player) (c s : ℚ) (fuel : ℕ) (h : Hit)
    (hunit : p.dir.x ^ 2 + p.dir.y ^ 2 = 1)
    (hcs : c ^ 2 + s ^ 2 = 1) (hc : 9 / 10 ≤ c)
    (hh : raycast_walls m p (Vector2RotateCS p.dir c s) fuel = RayResult.hit h) :
    0 < h.dist := by
  simp only [raycast_walls] at hh
  have hdot : 0 < Vector2DotProduct
      ⟨if (Vector2RotateCS p.dir c s).x = 0 then EPSILON else (Vector2RotateCS p.dir c s).x,
       if (Vector2RotateCS p.dir c s).y = 0 then EPSILON else (Vector2RotateCS p.dir c s).y⟩
      p.dir := rot_subst_dot_pos p.dir c s hunit hcs hc
  have hx : (⟨if (Vector2RotateCS p.dir c s).x = 0 then EPSILON else (Vector2RotateCS p.dir c s).x,
      if (Vector2RotateCS p.dir c s).y = 0 then EPSILON else (Vector2RotateCS p.dir c s).y⟩
        : Vector2).x ≠ 0 := by
    dsimp only
    split_ifs with h0
    · norm_num [EPSILON]
    · exact h0
  have hy : (⟨if (Vector2RotateCS p.dir c s).x = 0 then EPSILON else (Vector2RotateCS p.dir c s).x,
      if (Vector2RotateCS p.dir c s).y = 0 then EPSILON else (Vector2RotateCS p.dir c s).y⟩
        : Vector2).y ≠ 0 := by
    dsimp only
    split_ifs with h0
    · norm_num [EPSILON]
    · exact h0
  obtain ⟨T, hT, hrsT⟩ := raycastLoop_hit_on_ray m p.pos p.dir _ hx hy fuel _ EPSILON h
    (by norm_num [EPSILON]) rfl hh
  obtain ⟨hcx, hcy, hval, hne, hbounds, hdist⟩ := raycastLoop_hit_spec _ _ _ _ _ _ _ hh
  rw [hdist, hrsT]
  have hcalc : ∀ (v : Vector2) (t : ℚ),
      Vector2DotProduct (Vector2Subtract (Vector2Add p.pos (Vector2Scale v t)) p.pos) p.dir
        = t * Vector2DotProduct v p.dir := by
    intro v t
    simp only [Vector2DotProduct, Vector2Subtract, Vector2Add, Vector2Scale]
    ring
  rw [hcalc]
  have hAR : (0 : ℚ) < ASPECT_RATIO := by norm_num [ ASPECT_RATIO, SCREEN_W, SCREEN_H]
  exact div_pos (mul_pos hT hdot) hAR

/-- Landing on the positive-direction boundary target raises the floor by
exactly one. -/
theorem floor_target_pos (coord : ℚ) : ⌊(⌊coord⌋ : ℚ) + 1⌋ = ⌊coord⌋ + 1 := by
  rw [show ((⌊coord⌋ : ℚ) + 1) = ((⌊coord⌋ + 1 : ℤ) : ℚ) by push_cast; ring,
    Int.floor_intCast]

/-- Landing EPSILON past the negative-direction boundary target lowers the
floor by exactly one. -/
theorem floor_target_neg (coord : ℚ) : ⌊(⌊coord⌋ : ℚ) + -EPSILON⌋ = ⌊coord⌋ - 1 := by
  apply Int.floor_eq_iff.mpr
  constructor
  · push_cast
    norm_num [EPSILON]
    try linarith
  · push_cast
    norm_num [EPSILON]
    try linarith

/-- Each DDA advance strictly decreases the termination measure: the stepped
axis consumes exactly one boundary in its direction of travel, and the other
axis moves weakly in its own direction of travel. -/
theorem rayMeasure_step (ppos rs dir : Vector2) (hx : dir.x ≠ 0) (hy : dir.y ≠ 0) :
    rayMeasure ppos (ddaStep rs dir) dir ≤ rayMeasure ppos rs dir - 1 := by
  obtain ⟨htx, hty, hmin, hlx, hly⟩ := ddaStep_spec rs dir hx hy
  have hminpos : 0 < min (stepT rs.x dir.x) (stepT rs.y dir.y) := lt_min htx hty
  have hnx : (ddaStep rs dir).x
      = rs.x + dir.x * min (stepT rs.x dir.x) (stepT rs.y dir.y) := by
    rw [hmin]
    simp [Vector2Add, Vector2Scale]
  have hny : (ddaStep rs dir).y
      = rs.y + dir.y * min (stepT rs.x dir.x) (stepT rs.y dir.y) := by
    rw [hmin]
    simp [Vector2Add, Vector2Scale]
  have hxmono : (0 ≤ dir.x → ⌊rs.x⌋ ≤ ⌊(ddaStep rs dir).x⌋) ∧
      (dir.x < 0 → ⌊(ddaStep rs dir).x⌋ ≤ ⌊rs.x⌋) := by
    constructor
    · intro hdx
      apply Int.floor_le_floor
      rw [hnx]
      nlinarith
    · intro hdx
      apply Int.floor_le_floor
      rw [hnx]
      nlinarith
  have hymono : (0 ≤ dir.y → ⌊rs.y⌋ ≤ ⌊(ddaStep rs dir).y⌋) ∧
      (dir.y < 0 → ⌊(ddaStep rs dir).y⌋ ≤ ⌊rs.y⌋) := by
    constructor
    · intro hdy
      apply Int.floor_le_floor
      rw [hny]
      nlinarith
    · intro hdy
      apply Int.floor_le_floor
      rw [hny]
      nlinarith
  rcases lt_or_le (stepT rs.x dir.x) (stepT rs.y dir.y) with hcase | hcase
  · have hlx2 := hlx hcase
    have hxfl : (0 ≤ dir.x → ⌊(ddaStep rs dir).x⌋ = ⌊rs.x⌋ + 1) ∧
        (dir.x < 0 → ⌊(ddaStep rs dir).x⌋ = ⌊rs.x⌋ - 1) := by
      constructor
      · intro hdx
        rw [hlx2, if_pos hdx, floor_target_pos]
      · intro hdx
        rw [hlx2, if_neg (not_le.mpr hdx), floor_target_neg]
    unfold rayMeasure axisMeasure
    rcases le_or_lt 0 dir.x with hdx | hdx <;> rcases le_or_lt 0 dir.y with hdy | hdy
    · rw [if_pos hdx, if_pos hdy, if_pos hdx, if_pos hdy]
      have e1 := hxfl.1 hdx
      have e2 := hymono.1 hdy
      omega
    · rw [if_pos hdx, if_neg (not_le.mpr hdy), if_pos hdx, if_neg (not_le.mpr hdy)]
      have e1 := hxfl.1 hdx
      have e2 := hymono.2 hdy
      omega
    · rw [if_neg (not_le.mpr hdx), if_pos hdy, if_neg (not_le.mpr hdx), if_pos hdy]
      have e1 := hxfl.2 hdx
      have e2 := hymono.1 hdy
      omega
    · rw [if_neg (not_le.mpr hdx), if_neg (not_le.mpr hdy), if_neg (not_le.mpr hdx),
        if_neg (not_le.mpr hdy)]
      have e1 := hxfl.2 hdx
      have e2 := hymono.2 hdy
      omega
  · have hly2 := hly hcase
    have hyfl : (0 ≤ dir.y → ⌊(ddaStep rs dir).y⌋ = ⌊rs.y⌋ + 1) ∧
        (dir.y < 0 → ⌊(ddaStep rs dir).y⌋ = ⌊rs.y⌋ - 1) := by
      constructor
      · intro hdy
        rw [hly2, if_pos hdy, floor_target_pos]
      · intro hdy
        rw [hly2, if_neg (not_le.mpr hdy), floor_target_neg]
    unfold rayMeasure axisMeasure
    rcases le_or_lt 0 dir.x with hdx | hdx <;> rcases le_or_lt 0 dir.y with hdy | hdy
    · rw [if_pos hdx, if_pos hdy, if_pos hdx, if_pos hdy]
      have e1 := hxmono.1 hdx
      have e2 := hyfl.1 hdy
      omega
    · rw [if_pos hdx, if_neg (not_le.mpr hdy), if_pos hdx, if_neg (not_le.mpr hdy)]
      have e1 := hxmono.1 hdx
      have e2 := hyfl.2 hdy
      omega
    · rw [if_neg (not_le.mpr hdx), if_pos hdy, if_neg (not_le.mpr hdx), if_pos hdy]
      have e1 := hxmono.2 hdx
      have e2 := hyfl.1 hdy
      omega
    · rw [if_neg (not_le.mpr hdx), if_neg (not_le.mpr hdy), if_neg (not_le.mpr hdx),
        if_neg (not_le.mpr hdy)]
      have e1 := hxmono.2 hdx
      have e2 := hyfl.2 hdy
      omega

/-- While the loop condition holds (squared distance from the camera at most
MAX_RENDER_DIST squared), both axis measures are at least 1, so the
termination measure is at least 2. -/
theorem rayMeasure_active (ppos rs dir : Vector2)
    (hact : Vector2LengthSq (Vector2Subtract rs ppos) ≤ MAX_RENDER_DIST ^ 2) :
    2 ≤ rayMeasure ppos rs dir := by
  simp only [Vector2LengthSq, Vector2Subtract, MAX_RENDER_DIST] at hact
  have hx2 : (rs.x - ppos.x) ^ 2 ≤ 400 := by nlinarith [sq_nonneg (rs.y - ppos.y)]
  have hy2 : (rs.y - ppos.y) ^ 2 ≤ 400 := by nlinarith [sq_nonneg (rs.x - ppos.x)]
  have hxu : rs.x ≤ ppos.x + 20 := by nlinarith
  have hxl : ppos.x - 20 ≤ rs.x := by nlinarith
  have hyu : rs.y ≤ ppos.y + 20 := by nlinarith
  have hyl : ppos.y - 20 ≤ rs.y := by nlinarith
  have fx1 : ⌊rs.x⌋ ≤ ⌊ppos.x⌋ + 20 := by
    calc ⌊rs.x⌋ ≤ ⌊ppos.x + 20⌋ := Int.floor_le_floor hxu
    _ = ⌊ppos.x⌋ + 20 := by
        rw [show (ppos.x + 20) = ppos.x + ((20 : ℤ) : ℚ) by norm_num, Int.floor_add_int]
  have fx2 : ⌊ppos.x⌋ - 20 ≤ ⌊rs.x⌋ := by
    calc ⌊ppos.x⌋ - 20
        = ⌊ppos.x + ((-20 : ℤ) : ℚ)⌋ := by rw [Int.floor_add_int]; push_cast; ring
    _ ≤ ⌊rs.x⌋ := Int.floor_le_floor (by push_cast; linarith)
  have fy1 : ⌊rs.y⌋ ≤ ⌊ppos.y⌋ + 20 := by
    calc ⌊rs.y⌋ ≤ ⌊ppos.y + 20⌋ := Int.floor_le_floor hyu
    _ = ⌊ppos.y⌋ + 20 := by
        rw [show (ppos.y + 20) = ppos.y + ((20 : ℤ) : ℚ) by norm_num, Int.floor_add_int]
  have fy2 : ⌊ppos.y⌋ - 20 ≤ ⌊rs.y⌋ := by
    calc ⌊ppos.y⌋ - 20
        = ⌊ppos.y + ((-20 : ℤ) : ℚ)⌋ := by rw [Int.floor_add_int]; push_cast; ring
    _ ≤ ⌊rs.y⌋ := Int.floor_le_floor (by push_cast; linarith)
  unfold rayMeasure axisMeasure
  split_ifs <;> omega

/-- With fuel at least the termination measure, the traversal loop never runs
out of fuel. -/
theorem raycastLoop_no_fuelOut (m : ℤ → ℤ → ℕ) (ppos pdir dir : Vector2)
    (hx : dir.x ≠ 0) (hy : dir.y ≠ 0) :
    ∀ (fuel : ℕ) (rs : Vector2), rayMeasure ppos rs dir ≤ (fuel : ℤ) →
      raycastLoop m ppos pdir dir fuel rs ≠ RayResult.fuelOut := by
  intro fuel
  induction fuel with
  | zero =>
    intro rs hm
    rw [raycastLoop_zero]
    split_ifs with h1
    · exact absurd (rayMeasure_active ppos rs dir h1) (by omega)
    · simp
  | succ n ih =>
    intro rs hm
    rw [raycastLoop_succ]
    have hstep := rayMeasure_step ppos rs dir hx hy
    split_ifs with h1 h2 h3
    · simp
    · apply ih
      push_cast at hm ⊢
      omega
    · apply ih
      push_cast at hm ⊢
      omega
    · simp

/-- Claim C5: for every camera position and ray direction, the DDA traversal
loop of raycast_walls terminates: after the epsilon substitution both
direction components are nonzero, the loop condition confines the sample to
within MAX_RENDER_DIST of the camera, and every iteration crosses a fresh
grid boundary, so some finite fuel value suffices for the loop to conclude
with a hit or a no-hit rather than running out of fuel. -/
theorem C5_traversal_terminates (m : ℤ → ℤ → ℕ) (p : Player) (dir0 : Vector2) :
    ∃ fuel : ℕ, raycast_walls m p dir0 fuel ≠ RayResult.fuelOut := by
  simp only [raycast_walls]
  refine ⟨(rayMeasure p.pos
    (Vector2Add p.pos (Vector2Scale ⟨if dir0.x = 0 then EPSILON else dir0.x,
      if dir0.y = 0 then EPSILON else dir0.y⟩ EPSILON))
    ⟨if dir0.x = 0 then EPSILON else dir0.x,
      if dir0.y = 0 then EPSILON else dir0.y⟩).toNat, ?_⟩
  apply raycastLoop_no_fuelOut
  · dsimp only
    split_ifs with h0
    · norm_num [EPSILON]
    · exact h0
  · dsimp only
    split_ifs with h0
    · norm_num [EPSILON]
    · exact h0
  · exact Int.self_le_toNat _

/-- One-step unfolding of the visited-cells trace at positive fuel. -/
theorem visitedCells_succ (m : ℤ → ℤ → ℕ) (ppos dir : Vector2) (fuel : ℕ) (rs : Vector2) :
    visitedCells m ppos dir (fuel + 1) rs =
      if Vector2LengthSq (Vector2Subtract rs ppos) ≤ MAX_RENDER_DIST ^ 2 then
        (⌊rs.x⌋, ⌊rs.y⌋) ::
          (if (0 < rs.x ∧ rs.x < COLS ∧ 0 < rs.y ∧ rs.y < ROWS) ∧ m ⌊rs.y⌋ ⌊rs.x⌋ ≠ 0
           then []
           else visitedCells m ppos dir fuel (ddaStep rs dir))
      else [] := rfl

/-- Claim C1 (amended): each DDA iteration advances the sample along the ray
by the smaller of the two positive per-axis parametric boundary steps — both
coordinates move together, so the sample stays exactly on the ray — and the
stepped axis lands exactly on its boundary target: the next grid line when
that direction component is nonnegative, but EPSILON past the crossed grid
line when it is negative.  (Because of that overshoot the traversal does not
visit every cell the ray geometrically passes through: a cell crossed in a
sliver thinner than the overshoot can be skipped, as C1_counterexample
shows.) -/
theorem C1_dda_step (rs dir : Vector2) (hx : dir.x ≠ 0) (hy : dir.y ≠ 0) :
    0 < stepT rs.x dir.x ∧ 0 < stepT rs.y dir.y ∧
    ddaStep rs dir
      = Vector2Add rs (Vector2Scale dir (min (stepT rs.x dir.x) (stepT rs.y dir.y))) ∧
    (stepT rs.x dir.x < stepT rs.y dir.y →
      (ddaStep rs dir).x = (⌊rs.x⌋ : ℚ) + (if 0 ≤ dir.x then 1 else -EPSILON)) ∧
    (stepT rs.y dir.y ≤ stepT rs.x dir.x →
      (ddaStep rs dir).y = (⌊rs.y⌋ : ℚ) + (if 0 ≤ dir.y then 1 else -EPSILON)) :=
  ddaStep_spec rs dir hx hy

/-- Witness for the amended C1 at the sample (1/2, 1/2) and direction (1, 2):
the y step is smaller, and the advance lands exactly on the grid line y = 1. -/
theorem C1_witness :
    ((⟨1, 2⟩ : Vector2).x ≠ 0) ∧ ((⟨1, 2⟩ : Vector2).y ≠ 0) ∧
    0 < stepT (1/2) 1 ∧ 0 < stepT (1/2) 2 ∧
    ddaStep ⟨1/2, 1/2⟩ ⟨1, 2⟩
      = Vector2Add ⟨1/2, 1/2⟩ (Vector2Scale ⟨1, 2⟩ (min (stepT (1/2) 1) (stepT (1/2) 2))) ∧
    stepT (1/2) 2 ≤ stepT (1/2) 1 ∧
    (ddaStep ⟨1/2, 1/2⟩ ⟨1, 2⟩).y
      = (⌊(1/2 : ℚ)⌋ : ℚ) + (if (0 : ℚ) ≤ 2 then 1 else -EPSILON) := by
  have h := C1_dda_step ⟨1/2, 1/2⟩ ⟨1, 2⟩ (by norm_num) (by norm_num)
  have hle : stepT (1/2) 2 ≤ stepT (1/2) 1 := by norm_num [stepT, EPSILON]
  exact ⟨by norm_num, by norm_num, h.1, h.2.1, h.2.2.1, hle, h.2.2.2.2 hle⟩

/-- Counterexample for C1 as stated: casting from the camera at
(5/2 + EPSILON, 7/2 + 3 EPSILON/2) along the direction (-1, -1), the first
sample is (5/2, 7/2 + EPSILON/2) and the first DDA advance lands at
(2 - EPSILON, 3 - EPSILON/2) — with floors (1, 2), strictly inside a cell, so
NOT on the nearest grid-line crossing (which would have x = 2) — and against
the map whose only wall is cell (0, 1) the traversal visits exactly the cells
(2, 3), (1, 2), (0, 1), while the ray itself passes through cell (1, 3) (its
point at parameter 1/2 + 5 EPSILON/4, well within render range, has floors
(1, 3)): a cell the ray geometrically crosses is skipped. -/
theorem C1_counterexample :
    (ddaStep ⟨5/2, 7/2 + EPSILON/2⟩ ⟨-1, -1⟩).x = 2 - EPSILON ∧
    (ddaStep ⟨5/2, 7/2 + EPSILON/2⟩ ⟨-1, -1⟩).y = 3 - EPSILON/2 ∧
    ⌊(2 : ℚ) - EPSILON⌋ = 1 ∧ ⌊(3 : ℚ) - EPSILON/2⌋ = 2 ∧
    Vector2Add ⟨5/2 + EPSILON, 7/2 + 3*EPSILON/2⟩ (Vector2Scale ⟨-1, -1⟩ EPSILON)
      = ⟨5/2, 7/2 + EPSILON/2⟩ ∧
    visitedCells (fun i j => if i = 1 ∧ j = 0 then 128 else 0)
        ⟨5/2 + EPSILON, 7/2 + 3*EPSILON/2⟩ ⟨-1, -1⟩ 10 ⟨5/2, 7/2 + EPSILON/2⟩
      = [(2, 3), (1, 2), (0, 1)] ∧
    ⌊(Vector2Add ⟨5/2 + EPSILON, 7/2 + 3*EPSILON/2⟩
        (Vector2Scale ⟨-1, -1⟩ (1/2 + 5*EPSILON/4))).x⌋ = 1 ∧
    ⌊(Vector2Add ⟨5/2 + EPSILON, 7/2 + 3*EPSILON/2⟩
        (Vector2Scale ⟨-1, -1⟩ (1/2 + 5*EPSILON/4))).y⌋ = 3 ∧
    ((1, 3) : ℤ × ℤ) ∉ ([(2, 3), (1, 2), (0, 1)] : List (ℤ × ℤ)) := by
  have hs1 : ddaStep ⟨5/2, 7/2 + EPSILON/2⟩ ⟨-1, -1⟩ = ⟨2 - EPSILON, 3 - EPSILON/2⟩ := by
    norm_num [ddaStep, Vector2Add, EPSILON, Vector2.mk.injEq, abs_div]
  have hs2 : ddaStep ⟨2 - EPSILON, 3 - EPSILON/2⟩ ⟨-1, -1⟩ = ⟨1 - EPSILON, 2 - EPSILON/2⟩ := by
    norm_num [ddaStep, Vector2Add, EPSILON, Vector2.mk.injEq, abs_div]
  have hvis : visitedCells (fun i j => if i = 1 ∧ j = 0 then 128 else 0)
      ⟨5/2 + EPSILON, 7/2 + 3*EPSILON/2⟩ ⟨-1, -1⟩ 10 ⟨5/2, 7/2 + EPSILON/2⟩
      = [(2, 3), (1, 2), (0, 1)] := by
    rw [show (10 : ℕ) = 9 + 1 from rfl, visitedCells_succ]
    rw [if_pos (by norm_num [Vector2LengthSq, Vector2Subtract, MAX_RENDER_DIST, EPSILON])]
    rw [if_neg (by norm_num [COLS, ROWS, EPSILON])]
    rw [hs1]
    rw [show (9 : ℕ) = 8 + 1 from rfl, visitedCells_succ]
    rw [if_pos (by norm_num [Vector2LengthSq, Vector2Subtract, MAX_RENDER_DIST, EPSILON])]
    rw [if_neg (by norm_num [COLS, ROWS, EPSILON])]
    rw [hs2]
    rw [show (8 : ℕ) = 7 + 1 from rfl, visitedCells_succ]
    rw [if_pos (by norm_num [Vector2LengthSq, Vector2Subtract, MAX_RENDER_DIST, EPSILON])]
    rw [if_pos (by norm_num [COLS, ROWS, EPSILON])]
    norm_num [EPSILON, Prod.mk.injEq]
  refine ⟨?_, ?_, ?_, ?_, ?_, hvis, ?_, ?_, ?_⟩
  · rw [hs1]
  · rw [hs1]
  · norm_num [EPSILON]
  · norm_num [EPSILON]
  · norm_num [Vector2Add, Vector2Scale, EPSILON, Vector2.mk.injEq]
  · norm_num [Vector2Add, Vector2Scale, EPSILON]
  · norm_num [Vector2Add, Vector2Scale, EPSILON]
  · decide

/-- Shared concrete traversal: from the camera at (1/2, 3/2) facing (1, 0),
casting along (1, 0) (whose zero y component gets replaced by EPSILON)
against the reference map walks cells (0,1), (1,1), (2,1) and hits cell
(3, 1), which holds color code 128, at distance 17/12. -/
theorem raycastRefEval :
    raycast_walls mapRef ⟨⟨1/2, 3/2⟩, ⟨1, 0⟩⟩ ⟨1, 0⟩ 10 = RayResult.hit hitW := by
  simp only [raycast_walls, hitW]
  norm_num [Vector2Add, Vector2Scale, EPSILON]
  rw [show (10 : ℕ) = 9 + 1 from rfl, raycastLoop_succ]
  norm_num [Vector2LengthSq, Vector2Subtract, MAX_RENDER_DIST, COLS, ROWS, mapRef,
    ddaStep, Vector2Add, abs_div, EPSILON]
  rw [show (9 : ℕ) = 8 + 1 from rfl, raycastLoop_succ]
  norm_num [Vector2LengthSq, Vector2Subtract, MAX_RENDER_DIST, COLS, ROWS, mapRef,
    ddaStep, Vector2Add, abs_div, EPSILON]
  rw [show (8 : ℕ) = 7 + 1 from rfl, raycastLoop_succ]
  norm_num [Vector2LengthSq, Vector2Subtract, MAX_RENDER_DIST, COLS, ROWS, mapRef,
    ddaStep, Vector2Add, abs_div, EPSILON]
  rw [show (7 : ℕ) = 6 + 1 from rfl, raycastLoop_succ]
  norm_num [Vector2LengthSq, Vector2Subtract, MAX_RENDER_DIST, COLS, ROWS, mapRef,
    ddaStep, Vector2Add, abs_div, EPSILON, Vector2DotProduct, ASPECT_RATIO, SCREEN_W, SCREEN_H,
    RayResult.hit.injEq, Hit.mk.injEq, Vector2.mk.injEq]

/-- Witness for C2 at the concrete traversal: the ray direction is the unit
camera direction rotated by the identity rotation (cosine 1, sine 0), and the
reported hit distance 17/12 is positive. -/
theorem C2_witness :
    ((1 : ℚ) ^ 2 + 0 ^ 2 = 1) ∧ ((9 : ℚ) / 10 ≤ 1) ∧
    raycast_walls mapRef ⟨⟨1/2, 3/2⟩, ⟨1, 0⟩⟩ (Vector2RotateCS ⟨1, 0⟩ 1 0) 10
      = RayResult.hit hitW ∧
    0 < hitW.dist := by
  have hh : raycast_walls mapRef ⟨⟨1/2, 3/2⟩, ⟨1, 0⟩⟩ (Vector2RotateCS ⟨1, 0⟩ 1 0) 10
      = RayResult.hit hitW := by
    rw [show Vector2RotateCS (⟨1, 0⟩ : Vector2) 1 0 = ⟨1, 0⟩ by
      norm_num [Vector2RotateCS, Vector2.mk.injEq]]
    exact raycastRefEval
  exact ⟨by norm_num, by norm_num, hh,
    C2_hit_dist_pos mapRef ⟨⟨1/2, 3/2⟩, ⟨1, 0⟩⟩ 1 0 10 hitW (by norm_num) (by norm_num)
      (by norm_num) hh⟩

/-- Witness for C3 at the concrete traversal: the hit sample (3, 1.5000025)
lies strictly inside (0, 10) x (0, 10) and the map indices (3, 1) are its
floors, inside [0, 10) x [0, 10). -/
theorem C3_witness :
    raycast_walls mapRef ⟨⟨1/2, 3/2⟩, ⟨1, 0⟩⟩ ⟨1, 0⟩ 10 = RayResult.hit hitW ∧
    ((0 < hitW.rs.x ∧ hitW.rs.x < COLS ∧ 0 < hitW.rs.y ∧ hitW.rs.y < ROWS) ∧
     hitW.cellx = ⌊hitW.rs.x⌋ ∧ hitW.celly = ⌊hitW.rs.y⌋ ∧
     0 ≤ hitW.cellx ∧ hitW.cellx < 10 ∧ 0 ≤ hitW.celly ∧ hitW.celly < 10) :=
  ⟨raycastRefEval,
   C3_hit_in_bounds mapRef ⟨⟨1/2, 3/2⟩, ⟨1, 0⟩⟩ ⟨1, 0⟩ 10 hitW raycastRefEval⟩

/-- Witness for C10 at the concrete traversal: the hit value 128 is a color
code indexing into color_map, so the color branch is taken. -/
theorem C10_witness :
    raycast_walls mapRef ⟨⟨1/2, 3/2⟩, ⟨1, 0⟩⟩ ⟨1, 0⟩ 10 = RayResult.hit hitW ∧
    color_map.length = 7 ∧ 128 ≤ hitW.val ∧ hitW.val - 128 < color_map.length := by
  have h := C10_ref_map_colors ⟨⟨1/2, 3/2⟩, ⟨1, 0⟩⟩ ⟨1, 0⟩ 10 hitW raycastRefEval
  exact ⟨raycastRefEval, h.2.1, h.2.2.1, h.2.2.2⟩

end R3D
